import Mathlib

/-!
Verification development for the `LoadEqualizer` of the Equalizer parallel
rendering framework (source: `server/loadEqualizer.cpp`).

Modelling conventions (shallow embedding):
* C++ `float` values are modelled by `ℚ` (exact arithmetic; the float
  literal `std::numeric_limits<float>::epsilon()` becomes the rational
  `2 ^ (-23)`, and `0.0001f` becomes `1 / 10000`).
* C++ `int64_t` is modelled by `ℤ`; the sentinel
  `std::numeric_limits<int64_t>::max()` becomes `2 ^ 63 - 1`.
* C++ `uint32_t` is modelled by `ℕ`.
* Pointers compared for identity (`Channel*`) are modelled by `ℕ` ids,
  with `0` standing for the null pointer.
* The mutation of compounds (`setViewport` / `setRange`) is modelled by
  returning the list of performed assignments; an empty list means no
  compound was touched.
-/

namespace EqLB

/-- `eq::Viewport`: fractional rectangle; default constructed value is FULL. -/
structure Viewport where
  x : ℚ
  y : ℚ
  w : ℚ
  h : ℚ
deriving DecidableEq

def Viewport.FULL : Viewport := ⟨0, 0, 1, 1⟩

def Viewport.getXEnd (v : Viewport) : ℚ := v.x + v.w

def Viewport.getYEnd (v : Viewport) : ℚ := v.y + v.h

def Viewport.getArea (v : Viewport) : ℚ := v.w * v.h

def Viewport.hasArea (v : Viewport) : Bool := decide (0 < v.w) && decide (0 < v.h)

/-- `eq::Range`: fractional 1-D interval; `end` is a Lean keyword, renamed `end_`. -/
structure Range where
  start : ℚ
  end_ : ℚ
deriving DecidableEq

def Range.ALL : Range := ⟨0, 1⟩

def Range.hasData (r : Range) : Bool := decide (r.start < r.end_)

/-- The statistic event types relevant to `notifyLoadData`
    (`eq::Statistic::Type`); `OTHER` stands for every other enumerator,
    which the `switch` ignores via `default: break`. -/
inductive StatisticType where
  | CHANNEL_CLEAR
  | CHANNEL_DRAW
  | CHANNEL_READBACK
  | CHANNEL_ASSEMBLE
  | CHANNEL_FRAME_TRANSMIT
  | OTHER
deriving DecidableEq

structure Statistic where
  task : ℕ
  type : StatisticType
  startTime : ℤ
  endTime : ℤ
deriving DecidableEq

/-- `LoadEqualizer::Data` (one per-leaf, per-frame observation).
    `channel` is a pointer id (0 = null). The defaults of the constructor
    (declared in `loadEqualizer.h`) are `channel = 0`, `taskID = 0`,
    `time = -1`; `vp`/`range` default-construct to FULL/ALL. -/
structure Data where
  channel : ℕ
  taskID : ℕ
  vp : Viewport
  range : Range
  time : ℤ
  load : ℚ
deriving DecidableEq

/-- `LBFrameData = std::pair< uint32_t, LBDatas >`: frame number and items. -/
abbrev LBFrameData := ℕ × List Data

/-- `LoadEqualizer::Mode` (enumerator order fixed by use as array index). -/
inductive Mode where
  | MODE_VERTICAL
  | MODE_HORIZONTAL
  | MODE_DB
  | MODE_2D
deriving DecidableEq

/-- The slice of `Compound` the equalizer reads for one child. -/
structure Compound where
  taskID : ℕ
  usage : ℚ
  running : Bool
  channel : ℕ
  chanW : ℤ
  chanH : ℤ
deriving DecidableEq

/-- The slice of the root `Compound` the equalizer reads. -/
structure RootCompound where
  children : List Compound
  running : Bool
  pvpW : ℤ
  pvpH : ℤ
deriving DecidableEq

/-- `LoadEqualizer::Node`: leaf (bound to one compound) or internal. -/
inductive LBNode where
  | leaf (compound : Compound) (splitMode : Mode) (maxSize : ℤ × ℤ)
      (boundary2i : ℤ × ℤ) (boundaryf : ℚ) (time : ℚ) (usage : ℚ)
  | node (splitMode : Mode) (maxSize : ℤ × ℤ) (boundary2i : ℤ × ℤ)
      (boundaryf : ℚ) (time : ℚ) (usage : ℚ) (left right : LBNode)
deriving DecidableEq

def LBNode.time : LBNode → ℚ
  | .leaf _ _ _ _ _ t _ => t
  | .node _ _ _ _ t _ _ _ => t

def LBNode.usage : LBNode → ℚ
  | .leaf _ _ _ _ _ _ u => u
  | .node _ _ _ _ _ u _ _ => u

def LBNode.splitMode : LBNode → Mode
  | .leaf _ sm _ _ _ _ _ => sm
  | .node sm _ _ _ _ _ _ _ => sm

def LBNode.maxSize : LBNode → ℤ × ℤ
  | .leaf _ _ ms _ _ _ _ => ms
  | .node _ ms _ _ _ _ _ _ => ms

def LBNode.boundary2i : LBNode → ℤ × ℤ
  | .leaf _ _ _ b _ _ _ => b
  | .node _ _ b _ _ _ _ _ => b

def LBNode.boundaryf : LBNode → ℚ
  | .leaf _ _ _ _ b _ _ => b
  | .node _ _ _ b _ _ _ _ => b

/-- `node->left` (a leaf returns itself; the code only reads children of
    internal nodes). -/
def LBNode.getLeft : LBNode → LBNode
  | .leaf c sm ms b2 bf t u => .leaf c sm ms b2 bf t u
  | .node _ _ _ _ _ _ l _ => l

def LBNode.getRight : LBNode → LBNode
  | .leaf c sm ms b2 bf t u => .leaf c sm ms b2 bf t u
  | .node _ _ _ _ _ _ _ r => r

/-- `std::numeric_limits<int64_t>::max()`. -/
def int64Max : ℤ := 2 ^ 63 - 1

/-- `std::numeric_limits<float>::epsilon()` = 2^(-23). -/
def EPSILON : ℚ := 1 / 8388608

/-- The `EQ_MIN` macro `((a)<(b)?(a):(b))`, on `int64_t` and on `float`. -/
def EQ_MINi (a b : ℤ) : ℤ := if a < b then a else b

def EQ_MINq (a b : ℚ) : ℚ := if a < b then a else b

/-- The `EQ_MAX` macro `((a)>(b)?(a):(b))`, on `int64_t` and on `float`. -/
def EQ_MAXi (a b : ℤ) : ℤ := if b < a then a else b

def EQ_MAXq (a b : ℚ) : ℚ := if b < a then a else b

/-! ## Statistics reducer (`LoadEqualizer::notifyLoadData`) -/

/-- The stat-scanning loop of `notifyLoadData`: folds start/end/transmit
    accumulators over the statistics, skipping other tasks, and stopping at
    the first `CHANNEL_ASSEMBLE` of the observed task (`loadSet`). -/
def gatherStats (taskID : ℕ) : List Statistic → ℤ → ℤ → ℤ → ℤ × ℤ × ℤ
  | [], s, e, tt => (s, e, tt)
  | st :: rest, s, e, tt =>
    if st.task ≠ taskID then gatherStats taskID rest s e tt
    else
      match st.type with
      | .CHANNEL_CLEAR => gatherStats taskID rest (EQ_MINi s st.startTime) (EQ_MAXi e st.endTime) tt
      | .CHANNEL_DRAW => gatherStats taskID rest (EQ_MINi s st.startTime) (EQ_MAXi e st.endTime) tt
      | .CHANNEL_READBACK => gatherStats taskID rest (EQ_MINi s st.startTime) (EQ_MAXi e st.endTime) tt
      | .CHANNEL_FRAME_TRANSMIT => gatherStats taskID rest s e (tt + (st.endTime - st.startTime))
      | .CHANNEL_ASSEMBLE => (s, e, tt)
      | .OTHER => gatherStats taskID rest s e tt

/-- The update applied to a matched observation with positive area:
    `time = endTime - startTime`, raised to at least `1` and at least
    `timeTransmit`; `load = time / area`. Applied only when
    `startTime` moved off the sentinel. -/
def processData (stats : List Statistic) (d : Data) : Data :=
  let r := gatherStats d.taskID stats int64Max 0 0
  if r.1 = int64Max then d
  else
    let t := EQ_MAXi (EQ_MAXi (r.2.1 - r.1) 1) r.2.2
    { d with time := t, load := (t : ℚ) / d.vp.getArea }

/-- The inner item loop of `notifyLoadData`. `none` means the channel was
    not found in this record (the outer loop continues); `some items` means
    the function returned, with the possibly updated items. -/
def updateItems (channel : ℕ) (stats : List Statistic) : List Data → Option (List Data)
  | [] => none
  | d :: rest =>
    if d.channel ≠ channel then (updateItems channel stats rest).map (d :: ·)
    else if d.vp.getArea ≤ 0 then some (d :: rest)
    else some (processData stats d :: rest)

/-- `LoadEqualizer::notifyLoadData` (effect on the history). -/
def notifyLoadData (channel : ℕ) (frameNumber : ℕ) (stats : List Statistic) :
    List LBFrameData → List LBFrameData
  | [] => []
  | r :: rest =>
    if r.1 ≠ frameNumber then r :: notifyLoadData channel frameNumber stats rest
    else
      match updateItems channel stats r.2 with
      | some items => (r.1, items) :: rest
      | none => r :: notifyLoadData channel frameNumber stats rest

/-! ## Measurement history (`LoadEqualizer::_checkHistory`) -/

/-- A record is complete when no observation has `time < 0`. -/
def isCompleteRecord (items : List Data) : Bool := items.all (fun d => decide (0 ≤ d.time))

/-- The scan for the youngest complete data set: the argument is the history
    newest-first; the loop runs while `useFrame == 0`. -/
def findUseFrame : List LBFrameData → ℕ
  | [] => 0
  | r :: rest =>
    let u := if isCompleteRecord r.2 then r.1 else 0
    if u = 0 then findUseFrame rest else u

/-- The synthetic record's single observation: a default-constructed `Data`
    with `time = 1` and `load = 1`. -/
def syntheticData : Data := ⟨0, 0, Viewport.FULL, Range.ALL, 1, 1⟩

/-- `LoadEqualizer::_checkHistory`. -/
def checkHistory (h : List LBFrameData) : List LBFrameData :=
  let useFrame := findUseFrame h.reverse
  let h1 := h.dropWhile (fun r => decide (r.1 < useFrame))
  if h1.isEmpty then [(0, [syntheticData])] else h1

/-! ## Split tree construction (`LoadEqualizer::_buildTree`) -/

/-- A placeholder compound for the (unreachable) empty-list case of
    `_buildTree`; the C++ caller guards against empty children. -/
def dummyCompound : Compound := ⟨0, 0, false, 0, 0, 0⟩

/-- `LoadEqualizer::_buildTree`, with a structural fuel so that the
    definition evaluates inside the kernel. Each recursive call splits a
    list of length `n ≥ 2` into halves of length `≤ n - 1`, so
    `fuel = cs.length` (supplied by `buildTree`) always suffices.
    The `Node` constructor defaults (`loadEqualizer.h`) for `maxSize`,
    `boundary2i`, `boundaryf` are irrelevant: `_assignTargetTimes`
    overwrites them before any read; they are modelled as zeros. Internal
    nodes set `time = 0` as in the code. -/
def buildTreeFuel (mode : Mode) : ℕ → List Compound → LBNode
  | _, [] => .leaf dummyCompound (if mode = .MODE_2D then .MODE_VERTICAL else mode) (0, 0) (0, 0) 0 0 0
  | _, [c] => .leaf c (if mode = .MODE_2D then .MODE_VERTICAL else mode) (0, 0) (0, 0) 0 0 0
  | 0, c1 :: _ :: _ =>
    .leaf c1 (if mode = .MODE_2D then .MODE_VERTICAL else mode) (0, 0) (0, 0) 0 0 0
  | fuel + 1, c1 :: c2 :: rest =>
    let cs := c1 :: c2 :: rest
    let middle := cs.length / 2
    let l := buildTreeFuel mode fuel (cs.take middle)
    let r := buildTreeFuel mode fuel (cs.drop middle)
    let sm := if mode = .MODE_2D then
        (if r.splitMode = .MODE_VERTICAL then .MODE_HORIZONTAL else .MODE_VERTICAL)
      else mode
    .node sm (0, 0) (0, 0) 0 0 0 l r

def buildTree (mode : Mode) (cs : List Compound) : LBNode :=
  buildTreeFuel mode cs.length cs

/-! ## Target-time assignment (`LoadEqualizer::_assignTargetTimes` and
`LoadEqualizer::_assignLeftoverTime`) -/

/-- The lookup of the previous rendering time of a compound in the usable
    record (the first observation with the compound's task id). -/
def findTaskTime (front : List Data) (taskID : ℕ) : Option Data :=
  front.find? (fun d => decide (d.taskID = taskID))

/-- `LoadEqualizer::_assignTargetTimes`. `front` is `_history.front().second`
    (the usable record, unfiltered), `damping`, `cfgB2` and `cfgBf` the
    equalizer configuration; returns the updated tree and the remaining
    `totalTime` pool. The `MODE_2D` aggregation case is `EQUNIMPLEMENTED`
    in the source (log-and-continue); it is modelled as leaving the
    aggregates unchanged (such a node is never built). -/
def assignTargetTimes (front : List Data) (damping : ℚ) (cfgB2 : ℤ × ℤ) (cfgBf : ℚ) :
    LBNode → ℚ → ℚ → LBNode × ℚ
  | .leaf c sm _ _ _ _ _, totalTime, resourceTime =>
    let usage := if c.running then c.usage else 0
    let time0 := resourceTime * usage
    let time1 :=
      if 0 < usage then
        match findTaskTime front c.taskID with
        | some d => (1 - damping) * time0 + damping * (d.time : ℚ)
        | none => time0
      else time0
    let t := EQ_MINq time1 totalTime
    (.leaf c sm (c.chanW, c.chanH) cfgB2 cfgBf t usage, totalTime - t)
  | .node sm ms b2 bf _ _ l r, totalTime, resourceTime =>
    let resL := assignTargetTimes front damping cfgB2 cfgBf l totalTime resourceTime
    let resR := assignTargetTimes front damping cfgB2 cfgBf r resL.2 resourceTime
    let lt := resL.1
    let rt := resR.1
    let time := lt.time + rt.time
    let usage := lt.usage + rt.usage
    match sm with
    | .MODE_VERTICAL =>
      (.node sm (lt.maxSize.1 + rt.maxSize.1, EQ_MINi lt.maxSize.2 rt.maxSize.2)
        (lt.boundary2i.1 + rt.boundary2i.1, EQ_MAXi lt.boundary2i.2 rt.boundary2i.2)
        (EQ_MAXq lt.boundaryf rt.boundaryf) time usage lt rt, resR.2)
    | .MODE_HORIZONTAL =>
      (.node sm (EQ_MINi lt.maxSize.1 rt.maxSize.1, lt.maxSize.2 + rt.maxSize.2)
        (EQ_MAXi lt.boundary2i.1 rt.boundary2i.1, lt.boundary2i.2 + rt.boundary2i.2)
        (EQ_MAXq lt.boundaryf rt.boundaryf) time usage lt rt, resR.2)
    | .MODE_DB =>
      (.node sm ms
        (EQ_MAXi lt.boundary2i.1 rt.boundary2i.1, EQ_MAXi lt.boundary2i.2 rt.boundary2i.2)
        (lt.boundaryf + rt.boundaryf) time usage lt rt, resR.2)
    | .MODE_2D => (.node sm ms b2 bf time usage lt rt, resR.2)

/-- `LoadEqualizer::_assignLeftoverTime`. On a zero-usage subtree the code
    only asserts (`time < 0.0001`) and changes nothing. -/
def assignLeftoverTime : LBNode → ℚ → LBNode
  | .leaf c sm ms b2 bf t u, time =>
    if 0 < u then .leaf c sm ms b2 bf (t + time) u else .leaf c sm ms b2 bf t u
  | .node sm ms b2 bf t u l r, time =>
    if 0 < u then
      let leftTime0 := time * l.usage / u
      let rightTime0 := time - leftTime0
      let lr : ℚ × ℚ :=
        if time - leftTime0 < 1 / 10000 then (time, 0)
        else if time - rightTime0 < 1 / 10000 then (0, time)
        else (leftTime0, rightTime0)
      let lt := assignLeftoverTime l lr.1
      let rt := assignLeftoverTime r lr.2
      .node sm ms b2 bf (lt.time + rt.time) u lt rt
    else .node sm ms b2 bf t u l r

/-! ## Split solver (`LoadEqualizer::_computeSplit`, recursive overload)

The three accumulation loops are modelled with an explicit fuel argument.
Each loop pass either terminates or hands the pruned working set to the
next pass, and the pruning after a pass removes at least the minimal-end
element of a nonempty working set, so the C++ loop runs at most
`workingSet.length + 2` passes; every call below supplies that much fuel,
hence the fuelled function computes exactly the loop's result. -/

/-- One vertical accumulation walk (strip loads between discontinuities).
    `vp` is the node's viewport, `ws` the working set (sorted by `vp.x`),
    `sp` the running split position and `timeLeft` the remaining target. -/
def vLoop (vp : Viewport) : ℕ → List Data → ℚ → ℚ → ℚ
  | 0, _, sp, _ => sp
  | fuel + 1, ws, sp, timeLeft =>
    if EPSILON < timeLeft ∧ sp < vp.getXEnd ∧ ws ≠ [] then
      let ws1 := ws.filter (fun d => decide (sp < d.vp.getXEnd))
      let currentPos := ws1.foldl (fun m d => EQ_MINq m d.vp.getXEnd) 1
      let currentLoad := (ws1.takeWhile (fun d => decide (d.vp.x < currentPos))).foldl
        (fun acc d =>
          let y0 := d.vp.h
          let y1 := if d.vp.y < vp.y then y0 - (vp.y - d.vp.y) else y0
          let y2 := if vp.getYEnd < d.vp.getYEnd then y1 - (d.vp.getYEnd - vp.getYEnd) else y1
          if 0 < y2 then acc + d.load * (y2 / vp.h) else acc) 0
      let width := currentPos - sp
      let currentTime := width * vp.h * currentLoad
      if timeLeft ≤ currentTime then sp + width * timeLeft / currentTime
      else vLoop vp fuel ws1 currentPos (timeLeft - currentTime)
    else sp

/-- Horizontal counterpart of `vLoop` (working set sorted by `vp.y`). -/
def hLoop (vp : Viewport) : ℕ → List Data → ℚ → ℚ → ℚ
  | 0, _, sp, _ => sp
  | fuel + 1, ws, sp, timeLeft =>
    if EPSILON < timeLeft ∧ sp < vp.getYEnd ∧ ws ≠ [] then
      let ws1 := ws.filter (fun d => decide (sp < d.vp.getYEnd))
      let currentPos := ws1.foldl (fun m d => EQ_MINq m d.vp.getYEnd) 1
      let currentLoad := (ws1.takeWhile (fun d => decide (d.vp.y < currentPos))).foldl
        (fun acc d =>
          let x0 := d.vp.w
          let x1 := if d.vp.x < vp.x then x0 - (vp.x - d.vp.x) else x0
          let x2 := if vp.getXEnd < d.vp.getXEnd then x1 - (d.vp.getXEnd - vp.getXEnd) else x1
          if 0 < x2 then acc + d.load * (x2 / vp.w) else acc) 0
      let height := currentPos - sp
      let currentTime := height * vp.w * currentLoad
      if timeLeft ≤ currentTime then sp + height * timeLeft / currentTime
      else hLoop vp fuel ws1 currentPos (timeLeft - currentTime)
    else sp

/-- DB counterpart: loads are summed directly (1-D density), positions live
    on the range axis; `end_` is the end of the node's range. -/
def dbLoop (end_ : ℚ) : ℕ → List Data → ℚ → ℚ → ℚ
  | 0, _, sp, _ => sp
  | fuel + 1, ws, sp, timeLeft =>
    if EPSILON < timeLeft ∧ sp < end_ ∧ ws ≠ [] then
      let ws1 := ws.filter (fun d => decide (sp < d.range.end_))
      let currentPos := ws1.foldl (fun m d => EQ_MINq m d.range.end_) 1
      let currentLoad := (ws1.takeWhile (fun d => decide (d.range.start < currentPos))).foldl
        (fun acc d => acc + d.load) 0
      if timeLeft ≤ currentLoad then sp + (currentPos - sp) * timeLeft / currentLoad
      else dbLoop end_ fuel ws1 currentPos (timeLeft - currentLoad)
    else sp

/-- `EQ_MAX` with the lower bound followed by `EQ_MIN` with the upper bound,
    as at the end of the V/H cases. -/
def clampQ (lo hi v : ℚ) : ℚ := EQ_MINq (EQ_MAXq v lo) hi

/-- The boundary / maxSize clamping and snapping of the vertical case,
    applied to the loop result `sp0`. The `uint32_t` cast of
    `splitPos / boundary + .5f` is modelled as `Int.toNat ∘ floor`
    (identical on the defined, nonnegative domain). -/
def vClamp (pvpW : ℚ) (b2x : ℤ) (l r : LBNode) (vp : Viewport) (sp0 : ℚ) : ℚ :=
  let end_ := vp.getXEnd
  if l.usage = 0 then vp.x
  else if r.usage = 0 then end_
  else
    let boundary := (b2x : ℚ) / pvpW
    if 0 < boundary then
      let lengthRight := end_ - sp0
      let lengthLeft := sp0 - vp.x
      let maxRight := (r.maxSize.1 : ℚ) / pvpW
      let maxLeft := (l.maxSize.1 : ℚ) / pvpW
      let spA := if maxRight < lengthRight then end_ - maxRight
        else if maxLeft < lengthLeft then vp.x + maxLeft
        else sp0
      let spB := if spA - vp.x < boundary then vp.x + boundary else spA
      let spC := if end_ - spB < boundary then end_ - boundary else spB
      (((spC / boundary + 1 / 2).floor.toNat : ℚ)) * boundary
    else sp0

/-- Horizontal counterpart of `vClamp`. -/
def hClamp (pvpH : ℚ) (b2y : ℤ) (l r : LBNode) (vp : Viewport) (sp0 : ℚ) : ℚ :=
  let end_ := vp.getYEnd
  if l.usage = 0 then vp.y
  else if r.usage = 0 then end_
  else
    let boundary := (b2y : ℚ) / pvpH
    if 0 < boundary then
      let lengthRight := end_ - sp0
      let lengthLeft := sp0 - vp.y
      let maxRight := (r.maxSize.2 : ℚ) / pvpH
      let maxLeft := (l.maxSize.2 : ℚ) / pvpH
      let spA := if maxRight < lengthRight then end_ - maxRight
        else if maxLeft < lengthLeft then vp.y + maxLeft
        else sp0
      let spB := if spA - vp.y < boundary then vp.y + boundary else spA
      let spC := if end_ - spB < boundary then end_ - boundary else spB
      (((spC / boundary + 1 / 2).floor.toNat : ℚ)) * boundary
    else sp0

/-- The final vertical split position of an internal V node. -/
def vSplitPos (pvpW : ℚ) (b2x : ℤ) (l r : LBNode) (xs : List Data) (vp : Viewport) : ℚ :=
  clampQ vp.x vp.getXEnd
    (vClamp pvpW b2x l r vp (vLoop vp (xs.length + 2) xs vp.x l.time))

/-- The final horizontal split position of an internal H node. -/
def hSplitPos (pvpH : ℚ) (b2y : ℤ) (l r : LBNode) (ys : List Data) (vp : Viewport) : ℚ :=
  clampQ vp.y vp.getYEnd
    (hClamp pvpH b2y l r vp (hLoop vp (ys.length + 2) ys vp.y l.time))

/-- The final range split position of an internal DB node: usage collapse,
    snap to a multiple of the node's `boundaryf`, then collapse of slices
    thinner than `boundaryf` (no final interval clamp in the source). -/
def dbSplitPos (bf : ℚ) (l r : LBNode) (rs : List Data) (rg : Range) : ℚ :=
  let end_ := rg.end_
  let sp0 := dbLoop end_ (rs.length + 2) rs rg.start l.time
  let sp1 := if l.usage = 0 then rg.start else if r.usage = 0 then end_ else sp0
  let sp2 := (((sp1 / bf + 1 / 2).floor.toNat : ℚ)) * bf
  let sp3 := if sp2 - rg.start < bf then rg.start else sp2
  if end_ - sp3 < bf then end_ else sp3

/-- One `compound->setViewport` / `setRange` pair emitted at a leaf. -/
structure Assignment where
  compound : Compound
  vp : Viewport
  range : Range
deriving DecidableEq

/-- The observation a leaf appends to the newest history record:
    `time = -1` (pending), or `0` when the leaf will not render. -/
def mkObs (c : Compound) (vp : Viewport) (rg : Range) : Data :=
  { channel := c.channel, taskID := c.taskID, vp := vp, range := rg,
    time := if vp.hasArea && rg.hasData then -1 else 0, load := 0 }

/-- The recursive `LoadEqualizer::_computeSplit(Node*, ...)`. Returns the
    assignments written into the leaf compounds (in traversal order) and
    the observations appended to the newest history record. The source sets
    the right child's origin as `childVP.x = childVP.getXEnd()`, which in
    exact arithmetic equals `splitPos` (`vp.x + (splitPos - vp.x)`), and
    its extent as `end - childVP.x`; with exact arithmetic the
    epsilon-widening loop of the source never runs and is omitted. `MODE_2D` on a tree node is `EQUNIMPLEMENTED` (no output). -/
def computeSplitNode (pvpW pvpH : ℚ) :
    LBNode → List Data → List Data → List Data → Viewport → Range →
    List Assignment × List Data
  | .leaf c _ _ _ _ _ _, _, _, _, vp, rg => ([⟨c, vp, rg⟩], [mkObs c vp rg])
  | .node .MODE_VERTICAL _ b2 _ _ _ l r, xs, ys, rs, vp, rg =>
    let sp := vSplitPos pvpW b2.1 l r xs vp
    let childL : Viewport := ⟨vp.x, vp.y, sp - vp.x, vp.h⟩
    let childR : Viewport := ⟨sp, vp.y, vp.getXEnd - sp, vp.h⟩
    let resL := computeSplitNode pvpW pvpH l xs ys rs childL rg
    let resR := computeSplitNode pvpW pvpH r xs ys rs childR rg
    (resL.1 ++ resR.1, resL.2 ++ resR.2)
  | .node .MODE_HORIZONTAL _ b2 _ _ _ l r, xs, ys, rs, vp, rg =>
    let sp := hSplitPos pvpH b2.2 l r ys vp
    let childT : Viewport := ⟨vp.x, vp.y, vp.w, sp - vp.y⟩
    let childB : Viewport := ⟨vp.x, sp, vp.w, vp.getYEnd - sp⟩
    let resL := computeSplitNode pvpW pvpH l xs ys rs childT rg
    let resR := computeSplitNode pvpW pvpH r xs ys rs childB rg
    (resL.1 ++ resR.1, resL.2 ++ resR.2)
  | .node .MODE_DB _ _ bf _ _ l r, xs, ys, rs, vp, rg =>
    let sp := dbSplitPos bf l r rs rg
    let childL : Range := ⟨rg.start, sp⟩
    let childR : Range := ⟨sp, rg.end_⟩
    let resL := computeSplitNode pvpW pvpH l xs ys rs vp childL
    let resR := computeSplitNode pvpW pvpH r xs ys rs vp childR
    (resL.1 ++ resR.1, resL.2 ++ resR.2)
  | .node .MODE_2D _ _ _ _ _ _ _, _, _, _, _, _ => ([], [])

/-! ## Pre-frame driver (`LoadEqualizer::notifyUpdatePre` and the top-level
`LoadEqualizer::_computeSplit()`) -/

/-- `LoadEqualizer::_removeEmpty`. -/
def removeEmpty (items : List Data) : List Data :=
  items.filter (fun d => d.vp.hasArea && d.range.hasData)

/-- Insertion sort (stable, kernel-computable) used to model `std::sort`
    with the comparators `_compareX` / `_compareY` / `_compareRange`. The
    comparator bodies are declared in `loadEqualizer.h` (not part of the
    sources); modelled from the spec: the copies are sorted "by `vp.x`",
    "by `vp.y`" and "by `range.start`" respectively. Ties (`std::sort` is
    unstable) do not affect the accumulation loops, which only compare
    against the common discontinuity position. -/
def insertSorted (le : Data → Data → Bool) (d : Data) : List Data → List Data
  | [] => [d]
  | e :: rest => if le d e then d :: e :: rest else e :: insertSorted le d rest

def sortData (le : Data → Data → Bool) : List Data → List Data
  | [] => []
  | d :: rest => insertSorted le d (sortData le rest)

def sortByX (items : List Data) : List Data :=
  sortData (fun a b => decide (a.vp.x ≤ b.vp.x)) items

def sortByY (items : List Data) : List Data :=
  sortData (fun a b => decide (a.vp.y ≤ b.vp.y)) items

def sortByRange (items : List Data) : List Data :=
  sortData (fun a b => decide (a.range.start ≤ b.range.start)) items

/-- `Σ child.usage` over the running children (`nResources`). -/
def nResourcesOf (children : List Compound) : ℚ :=
  children.foldl (fun acc c => if c.running then acc + c.usage else acc) 0

/-- `push_back` of the freshly produced observations onto the newest
    (last) history record. -/
def appendToLast (obs : List Data) : List LBFrameData → List LBFrameData
  | [] => []
  | [rec] => [(rec.1, rec.2 ++ obs)]
  | rec :: rest => rec :: appendToLast obs rest

/-- The non-recursive `LoadEqualizer::_computeSplit()`: pre-sort, total
    time, per-resource time, the two target-time phases, then the
    recursive split starting from `Viewport()` = FULL and `Range()` = ALL.
    Returns the updated tree, the updated history and the emitted
    assignments. (With every child stopped, `nResources = 0` and the C++
    float division yields inf/nan; the rational model yields 0. No claim
    touches that degenerate configuration.) -/
def computeSplitTop (mode : Mode) (damping : ℚ) (cfgB2 : ℤ × ℤ) (cfgBf : ℚ)
    (tree : LBNode) (root : RootCompound) (history : List LBFrameData) :
    LBNode × List LBFrameData × List Assignment :=
  let frameData := history.headD (0, [])
  let items := removeEmpty frameData.2
  let sorted3 : List Data × List Data × List Data :=
    if mode = .MODE_DB then (items, items, sortByRange items)
    else (sortByX items, sortByY items, items)
  let totalTime : ℤ := items.foldl (fun acc d => acc + d.time) 0
  let nResources := nResourcesOf root.children
  let timePerResource := (totalTime : ℚ) / nResources
  let res1 := assignTargetTimes frameData.2 damping cfgB2 cfgBf tree (totalTime : ℚ) timePerResource
  let tree2 := assignLeftoverTime res1.1 res1.2
  let split := computeSplitNode (root.pvpW : ℚ) (root.pvpH : ℚ) tree2
    sorted3.1 sorted3.2.1 sorted3.2.2 Viewport.FULL Range.ALL
  (tree2, appendToLast split.2 history, split.1)

/-- The equalizer state read and written by `notifyUpdatePre`. -/
structure LoadEqualizer where
  mode : Mode
  damping : ℚ
  tree : Option LBNode
  boundary2i : ℤ × ℤ
  boundaryf : ℚ
  frozen : Bool
  history : List LBFrameData
deriving DecidableEq

/-- The part of `notifyUpdatePre` after the tree is known to exist. -/
def notifyUpdatePreWithTree (lb : LoadEqualizer) (root : RootCompound)
    (frameNumber : ℕ) (t : LBNode) : LoadEqualizer × List Assignment :=
  let h1 := checkHistory lb.history
  if lb.frozen || !root.running then ({ lb with tree := some t, history := h1 }, [])
  else
    let h2 := h1 ++ [(frameNumber, [])]
    let res := computeSplitTop lb.mode lb.damping lb.boundary2i lb.boundaryf t root h2
    ({ lb with tree := some res.1, history := res.2.1 }, res.2.2)

/-- `LoadEqualizer::notifyUpdatePre`: build the tree lazily (returning
    unchanged on a childless compound), check the history, bail out when
    frozen or not running, else push a new record and compute the split. -/
def notifyUpdatePre (lb : LoadEqualizer) (root : RootCompound)
    (frameNumber : ℕ) : LoadEqualizer × List Assignment :=
  match lb.tree with
  | none =>
    if root.children.isEmpty then (lb, [])
    else notifyUpdatePreWithTree lb root frameNumber (buildTree lb.mode root.children)
  | some t => notifyUpdatePreWithTree lb root frameNumber t

/-! ## Definitions supporting the claims -/

/-- Scenario S1: two equal children with 1024x1024 channels. -/
def s1Left : Compound := ⟨1, 1, true, 1, 1024, 1024⟩

def s1Right : Compound := ⟨2, 1, true, 2, 1024, 1024⟩

def s1Root : RootCompound := ⟨[s1Left, s1Right], true, 1024, 1024⟩

/-- A usable history record: loads uniformly 1.0 over the full viewport. -/
def s1History : List LBFrameData := [(0, [⟨0, 0, Viewport.FULL, Range.ALL, 1, 1⟩])]

def s1Equalizer : LoadEqualizer :=
  ⟨.MODE_VERTICAL, 0, none, (1, 1), EPSILON, false, s1History⟩

/-- Every internal node's time is the sum of its children's times. -/
def timeInv : LBNode → Prop
  | .leaf _ _ _ _ _ _ _ => True
  | .node _ _ _ _ t _ l r => t = l.time + r.time ∧ timeInv l ∧ timeInv r

/-- A DB internal node whose stale `maxSize` (7,9) differs from the
    componentwise maximum of the children's channel sizes. -/
def c7Tree : LBNode :=
  .node .MODE_DB (7, 9) (0, 0) 0 0 0
    (.leaf ⟨1, 1, true, 1, 100, 50⟩ .MODE_DB (0, 0) (0, 0) 0 0 0)
    (.leaf ⟨2, 1, true, 2, 60, 80⟩ .MODE_DB (0, 0) (0, 0) 0 0 0)

def c7Result : LBNode := (assignTargetTimes [] 0 (1, 1) (1 / 2) c7Tree 10 5).1

/-- The prefix of the statistics scanned before the first
    `CHANNEL_ASSEMBLE` entry of the observed task stops the loop. -/
def preAssemble (taskID : ℕ) (stats : List Statistic) : List Statistic :=
  stats.takeWhile
    (fun st => !(decide (st.task = taskID) && decide (st.type = .CHANNEL_ASSEMBLE)))

/-- Clear, draw and readback are the types that move `startTime` off the
    sentinel (the update trigger). -/
def isCDR : StatisticType → Bool
  | .CHANNEL_CLEAR => true
  | .CHANNEL_DRAW => true
  | .CHANNEL_READBACK => true
  | _ => false

/-- A relevant statistic: a clear/draw/readback entry of the observed task
    occurring before the first `CHANNEL_ASSEMBLE` entry of that task. -/
def hasRelevantStat (taskID : ℕ) (stats : List Statistic) : Bool :=
  (preAssemble taskID stats).any (fun st => decide (st.task = taskID) && isCDR st.type)

/-- The value written into `observation.time` when the update fires:
    `max(1, endTime - startTime, timeTransmit)` with the aggregates of the
    scanning loop. -/
def newTimeOf (taskID : ℕ) (stats : List Statistic) : ℤ :=
  EQ_MAXi (EQ_MAXi ((gatherStats taskID stats int64Max 0 0).2.1 -
    (gatherStats taskID stats int64Max 0 0).1) 1)
    (gatherStats taskID stats int64Max 0 0).2.2

def vpContains (v : Viewport) (p : ℚ × ℚ) : Prop :=
  v.x ≤ p.1 ∧ p.1 < v.x + v.w ∧ v.y ≤ p.2 ∧ p.2 < v.y + v.h

def rangeContains (r : Range) (q : ℚ) : Prop := r.start ≤ q ∧ q < r.end_

/-- Every internal node of the tree splits vertically or horizontally
    (the shape produced by `_buildTree` in the 2D, VERTICAL and HORIZONTAL
    modes). -/
def is2DTree : LBNode → Bool
  | .leaf _ _ _ _ _ _ _ => true
  | .node sm _ _ _ _ _ l r =>
    (decide (sm = .MODE_VERTICAL) || decide (sm = .MODE_HORIZONTAL)) &&
      is2DTree l && is2DTree r

/-- Every internal node splits the database range and carries a
    nonnegative `boundaryf` (the shape produced by `_buildTree` and
    `_assignTargetTimes` in DB mode with a nonnegative configured
    boundary). -/
def isDBTree : LBNode → Bool
  | .leaf _ _ _ _ _ _ _ => true
  | .node sm _ _ bf _ _ l r =>
    decide (sm = .MODE_DB) && decide (0 ≤ bf) && isDBTree l && isDBTree r

def c2TwoDTree : LBNode :=
  .node .MODE_VERTICAL (0, 0) (2, 2) 0 1 2
    (.leaf s1Left .MODE_VERTICAL (1024, 1024) (1, 1) 0 (1 / 2) 1)
    (.leaf s1Right .MODE_VERTICAL (1024, 1024) (1, 1) 0 (1 / 2) 1)

def c2DBTree : LBNode :=
  .node .MODE_DB (0, 0) (1, 1) 1 1 2
    (.leaf s1Left .MODE_DB (1024, 1024) (1, 1) 1 (1 / 2) 1)
    (.leaf s1Right .MODE_DB (1024, 1024) (1, 1) 1 (1 / 2) 1)

/-! ## Claim C1: scenario S1 -/

set_option maxRecDepth 100000

/-- Claim C1: with mode VERTICAL, two children of equal positive usage,
    damping 0, boundary2i (1,1), root viewport FULL and root range ALL, and
    a usable history record whose observations have load uniformly 1.0 over
    the full viewport, the plan computed by `notifyUpdatePre` splits at
    x = 0.5: the left child compound is assigned viewport (0,0,0.5,1) and
    the right child compound viewport (0.5,0,0.5,1). -/
theorem scenarioS1_splits_at_half :
    (notifyUpdatePre s1Equalizer s1Root 1).2 =
      [⟨s1Left, ⟨0, 0, 1 / 2, 1⟩, Range.ALL⟩,
       ⟨s1Right, ⟨1 / 2, 0, 1 / 2, 1⟩, Range.ALL⟩] := by
  with_unfolding_all decide

/-! ## Claim C6: internal-node time invariant after both C4 phases -/

lemma assignTargetTimes_timeInv (front : List Data) (damping : ℚ) (cfgB2 : ℤ × ℤ)
    (cfgBf : ℚ) : ∀ (t : LBNode) (total resT : ℚ),
    timeInv (assignTargetTimes front damping cfgB2 cfgBf t total resT).1 := by
  intro t
  induction t with
  | leaf c sm ms b2 bf tt u =>
    intro total resT
    simp [assignTargetTimes, timeInv]
  | node sm ms b2 bf tt u l r ihl ihr =>
    intro total resT
    simp only [assignTargetTimes]
    cases sm <;>
      exact ⟨rfl, ihl total resT, ihr _ resT⟩

lemma assignLeftoverTime_timeInv : ∀ (t : LBNode) (x : ℚ),
    timeInv t → timeInv (assignLeftoverTime t x) := by
  intro t
  induction t with
  | leaf c sm ms b2 bf tt u =>
    intro x _
    simp only [assignLeftoverTime]
    split <;> trivial
  | node sm ms b2 bf tt u l r ihl ihr =>
    intro x h
    obtain ⟨he, hl, hr⟩ := h
    simp only [assignLeftoverTime]
    split
    · exact ⟨rfl, ihl _ hl, ihr _ hr⟩
    · exact ⟨he, hl, hr⟩

/-- Claim C6: for every split tree and every input, after target-time
    assignment (`_assignTargetTimes`) followed by leftover redistribution
    (`_assignLeftoverTime`), every internal node satisfies
    `node.time = left.time + right.time`. -/
theorem both_phases_internal_time_is_sum (front : List Data) (damping : ℚ)
    (cfgB2 : ℤ × ℤ) (cfgBf : ℚ) (t : LBNode) (total resT leftover : ℚ) :
    timeInv (assignLeftoverTime
      (assignTargetTimes front damping cfgB2 cfgBf t total resT).1 leftover) :=
  assignLeftoverTime_timeInv _ _
    (assignTargetTimes_timeInv front damping cfgB2 cfgBf t total resT)

/-! ## Claim C8: frozen / stopped compound -/

/-- Claim C8: when the tree exists and the equalizer is frozen or the
    compound is not running, `notifyUpdatePre` only performs the history
    check (no record is pushed, no split is computed, no compound viewport
    or range assignment is emitted). -/
theorem frozen_or_stopped_only_checks_history (lb : LoadEqualizer)
    (root : RootCompound) (frameNumber : ℕ) (t : LBNode)
    (ht : lb.tree = some t) (hfr : lb.frozen = true ∨ root.running = false) :
    notifyUpdatePre lb root frameNumber =
      ({ lb with history := checkHistory lb.history }, []) := by
  obtain ⟨mode, damping, tree, b2, bf, frozen, history⟩ := lb
  simp only at ht
  subst ht
  simp only [notifyUpdatePre, notifyUpdatePreWithTree]
  rcases hfr with h | h <;> simp_all

theorem frozen_or_stopped_only_checks_history_witness :
    notifyUpdatePre ⟨.MODE_2D, 1 / 2, some (buildTree .MODE_2D [s1Left]), (1, 1),
        EPSILON, true, s1History⟩ s1Root 3 =
      ({ mode := .MODE_2D, damping := 1 / 2, tree := some (buildTree .MODE_2D [s1Left]),
         boundary2i := (1, 1), boundaryf := EPSILON, frozen := true,
         history := checkHistory s1History }, []) :=
  frozen_or_stopped_only_checks_history _ s1Root 3 _ rfl (Or.inl rfl)

/-! ## Claim C9: childless compound, unbuilt tree -/

/-- Claim C9: if the split tree has not been built and the compound has no
    children, `notifyUpdatePre` returns with the equalizer state completely
    unchanged and no assignment emitted (in particular the history is not
    checked and no synthetic record is inserted). -/
theorem childless_compound_full_noop (lb : LoadEqualizer) (root : RootCompound)
    (frameNumber : ℕ) (ht : lb.tree = none) (hc : root.children = []) :
    notifyUpdatePre lb root frameNumber = (lb, []) := by
  simp [notifyUpdatePre, ht, hc]

theorem childless_compound_full_noop_witness :
    notifyUpdatePre ⟨.MODE_2D, 1 / 2, none, (1, 1), EPSILON, false, s1History⟩
      ⟨[], true, 1024, 1024⟩ 7 =
      (⟨.MODE_2D, 1 / 2, none, (1, 1), EPSILON, false, s1History⟩, []) :=
  childless_compound_full_noop _ _ 7 rfl rfl

/-! ## Claim C7: aggregation at internal DB nodes -/

lemma EQ_MAXi_eq_max (a b : ℤ) : EQ_MAXi a b = max a b := by
  rw [EQ_MAXi, max_def]
  split_ifs <;> omega

/-- Counterexample to claim C7: after `_assignTargetTimes`, the children's
    aggregated `maxSize` components are (100,50) and (60,80), whose
    componentwise maximum is (100,80); but the internal DB node's `maxSize`
    keeps its previous value (7,9) — the `MODE_DB` branch of the
    aggregation switch never assigns `maxSize`. -/
theorem db_node_keeps_stale_maxSize :
    c7Result.getLeft.maxSize = (100, 50) ∧
    c7Result.getRight.maxSize = (60, 80) ∧
    c7Result.maxSize = (7, 9) ∧ c7Result.maxSize ≠ (100, 80) := by
  with_unfolding_all decide

/-- Claim C7 as amended: for every internal split-tree node with splitMode
    DB, after target-time assignment the node's `boundaryf` is the sum and
    its `boundary2i` the componentwise maximum of the children's values,
    while `maxSize` is left unchanged (it is not recomputed for DB nodes). -/
theorem db_node_aggregates (front : List Data) (damping : ℚ) (cfgB2 : ℤ × ℤ)
    (cfgBf : ℚ) (ms b2 : ℤ × ℤ) (bf t u : ℚ) (l r : LBNode) (total resT : ℚ) :
    (assignTargetTimes front damping cfgB2 cfgBf
        (.node .MODE_DB ms b2 bf t u l r) total resT).1.splitMode = .MODE_DB ∧
    (assignTargetTimes front damping cfgB2 cfgBf
        (.node .MODE_DB ms b2 bf t u l r) total resT).1.maxSize = ms ∧
    (assignTargetTimes front damping cfgB2 cfgBf
        (.node .MODE_DB ms b2 bf t u l r) total resT).1.boundary2i =
      (max (assignTargetTimes front damping cfgB2 cfgBf
          (.node .MODE_DB ms b2 bf t u l r) total resT).1.getLeft.boundary2i.1
        (assignTargetTimes front damping cfgB2 cfgBf
          (.node .MODE_DB ms b2 bf t u l r) total resT).1.getRight.boundary2i.1,
       max (assignTargetTimes front damping cfgB2 cfgBf
          (.node .MODE_DB ms b2 bf t u l r) total resT).1.getLeft.boundary2i.2
        (assignTargetTimes front damping cfgB2 cfgBf
          (.node .MODE_DB ms b2 bf t u l r) total resT).1.getRight.boundary2i.2) ∧
    (assignTargetTimes front damping cfgB2 cfgBf
        (.node .MODE_DB ms b2 bf t u l r) total resT).1.boundaryf =
      (assignTargetTimes front damping cfgB2 cfgBf
          (.node .MODE_DB ms b2 bf t u l r) total resT).1.getLeft.boundaryf +
        (assignTargetTimes front damping cfgB2 cfgBf
          (.node .MODE_DB ms b2 bf t u l r) total resT).1.getRight.boundaryf := by
  simp [assignTargetTimes, LBNode.splitMode, LBNode.maxSize, LBNode.boundary2i,
    LBNode.boundaryf, LBNode.getLeft, LBNode.getRight, EQ_MAXi_eq_max]

/-! ## Claims C3, C4, C10: characterization of `notifyLoadData` -/

lemma preAssemble_cons_go (taskID : ℕ) (st : Statistic) (rest : List Statistic)
    (h : ¬(st.task = taskID ∧ st.type = .CHANNEL_ASSEMBLE)) :
    preAssemble taskID (st :: rest) = st :: preAssemble taskID rest := by
  have hp : (!(decide (st.task = taskID) && decide (st.type = StatisticType.CHANNEL_ASSEMBLE))) = true := by
    by_cases h1 : st.task = taskID
    · by_cases h2 : st.type = StatisticType.CHANNEL_ASSEMBLE
      · exact absurd ⟨h1, h2⟩ h
      · simp [h1, h2]
    · simp [h1]
  simp [preAssemble, List.takeWhile, hp]

lemma preAssemble_cons_stop (taskID : ℕ) (st : Statistic) (rest : List Statistic)
    (h1 : st.task = taskID) (h2 : st.type = .CHANNEL_ASSEMBLE) :
    preAssemble taskID (st :: rest) = [] := by
  simp [preAssemble, List.takeWhile, h1, h2]

lemma hasRelevantStat_cons_go (taskID : ℕ) (st : Statistic) (rest : List Statistic)
    (h : ¬(st.task = taskID ∧ st.type = .CHANNEL_ASSEMBLE)) :
    hasRelevantStat taskID (st :: rest) =
      ((decide (st.task = taskID) && isCDR st.type) || hasRelevantStat taskID rest) := by
  rw [hasRelevantStat, preAssemble_cons_go taskID st rest h, List.any_cons]
  rfl

lemma gatherStats_fst_le (taskID : ℕ) :
    ∀ (stats : List Statistic) (s e tt : ℤ), (gatherStats taskID stats s e tt).1 ≤ s := by
  intro stats
  induction stats with
  | nil => intro s e tt; simp [gatherStats]
  | cons st rest ih =>
    intro s e tt
    rw [gatherStats]
    by_cases h : st.task = taskID
    · simp only [h, ne_eq, not_true_eq_false, if_false]
      cases htype : st.type
      · exact le_trans (ih _ _ _) (by rw [EQ_MINi]; split <;> omega)
      · exact le_trans (ih _ _ _) (by rw [EQ_MINi]; split <;> omega)
      · exact le_trans (ih _ _ _) (by rw [EQ_MINi]; split <;> omega)
      · exact le_refl s
      · exact ih _ _ _
      · exact ih _ _ _
    · simpa [h] using ih s e tt

lemma gatherStats_fst_of_no_relevant (taskID : ℕ) :
    ∀ (stats : List Statistic) (s e tt : ℤ),
      hasRelevantStat taskID stats = false → (gatherStats taskID stats s e tt).1 = s := by
  intro stats
  induction stats with
  | nil => intro s e tt _; simp [gatherStats]
  | cons st rest ih =>
    intro s e tt h
    rw [gatherStats]
    by_cases ht : st.task = taskID
    · by_cases ha : st.type = .CHANNEL_ASSEMBLE
      · simp [ht, ha]
      · rw [hasRelevantStat_cons_go taskID st rest (by simp [ha]),
          Bool.or_eq_false_iff, Bool.and_eq_false_iff] at h
        have hcdr : isCDR st.type = false := by
          rcases h.1 with hc | hc
          · simp [ht] at hc
          · exact hc
        cases htype : st.type <;> simp only [ht, ne_eq, not_true_eq_false, if_false]
        all_goals first
          | exact ih _ _ _ h.2
          | exact absurd htype ha
          | (rw [htype] at hcdr; simp [isCDR] at hcdr)
    · rw [hasRelevantStat_cons_go taskID st rest (by simp [ht]),
        Bool.or_eq_false_iff] at h
      simpa [ht] using ih s e tt h.2

lemma gatherStats_fst_lt_of_relevant (taskID : ℕ) (M : ℤ) :
    ∀ (stats : List Statistic) (s e tt : ℤ), s ≤ M →
      (∀ st ∈ stats, st.startTime < M) →
      hasRelevantStat taskID stats = true → (gatherStats taskID stats s e tt).1 < M := by
  intro stats
  induction stats with
  | nil => intro s e tt _ _ h; simp [hasRelevantStat, preAssemble] at h
  | cons st rest ih =>
    intro s e tt hs hst h
    rw [gatherStats]
    by_cases ht : st.task = taskID
    · by_cases ha : st.type = .CHANNEL_ASSEMBLE
      · exfalso
        rw [hasRelevantStat, preAssemble_cons_stop taskID st rest ht ha] at h
        simp at h
      · rw [hasRelevantStat_cons_go taskID st rest (by simp [ha])] at h
        have hstt : st.startTime < M := hst st (by simp)
        cases htype : st.type <;> simp only [ht, ne_eq, not_true_eq_false, if_false]
        · exact lt_of_le_of_lt (gatherStats_fst_le taskID _ _ _ _)
            (by rw [EQ_MINi]; split <;> omega)
        · exact lt_of_le_of_lt (gatherStats_fst_le taskID _ _ _ _)
            (by rw [EQ_MINi]; split <;> omega)
        · exact lt_of_le_of_lt (gatherStats_fst_le taskID _ _ _ _)
            (by rw [EQ_MINi]; split <;> omega)
        · exact absurd htype ha
        · have hrel : hasRelevantStat taskID rest = true := by
            rw [htype] at h
            simpa [isCDR] using h
          exact ih _ _ _ hs (fun x hx => hst x (by simp [hx])) hrel
        · have hrel : hasRelevantStat taskID rest = true := by
            rw [htype] at h
            simpa [isCDR] using h
          exact ih _ _ _ hs (fun x hx => hst x (by simp [hx])) hrel
    · rw [hasRelevantStat_cons_go taskID st rest (by simp [ht])] at h
      have hrel : hasRelevantStat taskID rest = true := by
        simpa [ht] using h
      simpa [ht] using ih s e tt hs (fun x hx => hst x (by simp [hx])) hrel

lemma processData_of_no_relevant (stats : List Statistic) (d : Data)
    (h : hasRelevantStat d.taskID stats = false) : processData stats d = d := by
  rw [processData]
  simp [gatherStats_fst_of_no_relevant d.taskID stats int64Max 0 0 h]

lemma processData_of_relevant (stats : List Statistic) (d : Data)
    (hst : ∀ st ∈ stats, st.startTime < int64Max)
    (h : hasRelevantStat d.taskID stats = true) :
    processData stats d =
      { d with time := newTimeOf d.taskID stats,
               load := (newTimeOf d.taskID stats : ℚ) / d.vp.getArea } := by
  have hlt := gatherStats_fst_lt_of_relevant d.taskID int64Max stats int64Max 0 0
    (le_refl _) hst h
  rw [processData]
  simp only [ne_of_lt hlt, if_false]
  rfl

/-- `processData` never touches the identifying fields. -/
lemma processData_fields (stats : List Statistic) (d : Data) :
    (processData stats d).channel = d.channel ∧
    (processData stats d).taskID = d.taskID ∧
    (processData stats d).vp = d.vp ∧ (processData stats d).range = d.range := by
  rw [processData]
  split <;> simp

lemma updateItems_found (ch : ℕ) (stats : List Statistic) :
    ∀ (items1 : List Data) (d : Data) (items2 : List Data),
      (∀ e ∈ items1, e.channel ≠ ch) → d.channel = ch → 0 < d.vp.getArea →
      updateItems ch stats (items1 ++ d :: items2) =
        some (items1 ++ processData stats d :: items2) := by
  intro items1
  induction items1 with
  | nil =>
    intro d items2 _ hch harea
    rw [List.nil_append, updateItems]
    simp [hch, not_le.mpr harea]
  | cons e rest ih =>
    intro d items2 hni hch harea
    have he : e.channel ≠ ch := hni e (by simp)
    rw [List.cons_append, updateItems]
    simp only [he, if_true, ne_eq, not_false_eq_true]
    rw [ih d items2 (fun x hx => hni x (by simp [hx])) hch harea]
    rfl

lemma notifyLoadData_found (ch frame : ℕ) (stats : List Statistic)
    (items itemsRes : List Data) (post : List LBFrameData)
    (hupd : updateItems ch stats items = some itemsRes) :
    ∀ (pre : List LBFrameData), (∀ r ∈ pre, r.1 ≠ frame) →
      notifyLoadData ch frame stats (pre ++ (frame, items) :: post) =
        pre ++ (frame, itemsRes) :: post := by
  intro pre
  induction pre with
  | nil =>
    intro _
    rw [List.nil_append, notifyLoadData]
    simp [hupd]
  | cons r rest ih =>
    intro hpre
    have hr : r.1 ≠ frame := hpre r (by simp)
    rw [List.cons_append, notifyLoadData]
    simp only [hr, if_true, ne_eq, not_false_eq_true]
    rw [ih (fun x hx => hpre x (by simp [hx]))]
    rfl

/-- Counterexample to claim C3: a statistics array holding only a
    frame-transmit entry for the observed task is "relevant" per the claim,
    so the claim demands `time = max(1, endTime - startTime, timeTransmit)`;
    the code leaves the observation unchanged (`startTime` never moves off
    the sentinel, and the sentinel test returns early). -/
theorem transmit_only_stat_leaves_observation_unchanged :
    notifyLoadData 1 1 [⟨3, .CHANNEL_FRAME_TRANSMIT, 0, 5⟩]
        [(1, [⟨1, 3, Viewport.FULL, Range.ALL, -1, 0⟩])] =
      [(1, [⟨1, 3, Viewport.FULL, Range.ALL, -1, 0⟩])] ∧
    (⟨1, 3, Viewport.FULL, Range.ALL, -1, 0⟩ : Data).time ≠
      newTimeOf 3 [⟨3, .CHANNEL_FRAME_TRANSMIT, 0, 5⟩] := by
  with_unfolding_all decide

/-- Claim C3 as amended: for a `notifyLoadData` call matching a record and
    an observation for the channel with positive area, if the statistics
    hold at least one clear/draw/readback entry of the observation's task
    before the first channel-assemble entry of that task, the observation's
    time becomes `max(1, endTime - startTime, timeTransmit)` and its load
    `time / viewport.area`; otherwise (in particular when only
    frame-transmit entries of the task occur) the history is unchanged. -/
theorem notifyLoadData_update_rule (ch frame : ℕ) (stats : List Statistic)
    (pre post : List LBFrameData) (items1 items2 : List Data) (d : Data)
    (hpre : ∀ r ∈ pre, r.1 ≠ frame)
    (hitems : ∀ e ∈ items1, e.channel ≠ ch)
    (hch : d.channel = ch) (harea : 0 < d.vp.getArea)
    (hst : ∀ st ∈ stats, st.startTime < int64Max) :
    (hasRelevantStat d.taskID stats = true →
      notifyLoadData ch frame stats (pre ++ (frame, items1 ++ d :: items2) :: post) =
        pre ++ (frame, items1 ++
          { d with time := newTimeOf d.taskID stats,
                   load := (newTimeOf d.taskID stats : ℚ) / d.vp.getArea } :: items2) :: post) ∧
    (hasRelevantStat d.taskID stats = false →
      notifyLoadData ch frame stats (pre ++ (frame, items1 ++ d :: items2) :: post) =
        pre ++ (frame, items1 ++ d :: items2) :: post) := by
  constructor
  · intro hrel
    rw [notifyLoadData_found ch frame stats _ _ post
        (updateItems_found ch stats items1 d items2 hitems hch harea) pre hpre,
      processData_of_relevant stats d hst hrel]
  · intro hrel
    rw [notifyLoadData_found ch frame stats _ _ post
        (updateItems_found ch stats items1 d items2 hitems hch harea) pre hpre,
      processData_of_no_relevant stats d hrel]

theorem notifyLoadData_update_rule_witness :
    ((hasRelevantStat 3 [⟨3, .CHANNEL_DRAW, 0, 5⟩] = true →
      notifyLoadData 1 1 [⟨3, .CHANNEL_DRAW, 0, 5⟩]
          ([] ++ (1, [] ++ (⟨1, 3, Viewport.FULL, Range.ALL, -1, 0⟩ : Data) :: []) :: []) =
        [] ++ (1, [] ++
          { (⟨1, 3, Viewport.FULL, Range.ALL, -1, 0⟩ : Data) with
              time := newTimeOf 3 [⟨3, .CHANNEL_DRAW, 0, 5⟩],
              load := (newTimeOf 3 [⟨3, .CHANNEL_DRAW, 0, 5⟩] : ℚ) /
                (⟨1, 3, Viewport.FULL, Range.ALL, -1, 0⟩ : Data).vp.getArea } :: []) :: []) ∧
    (hasRelevantStat 3 [⟨3, .CHANNEL_DRAW, 0, 5⟩] = false →
      notifyLoadData 1 1 [⟨3, .CHANNEL_DRAW, 0, 5⟩]
          ([] ++ (1, [] ++ (⟨1, 3, Viewport.FULL, Range.ALL, -1, 0⟩ : Data) :: []) :: []) =
        [] ++ (1, [] ++ (⟨1, 3, Viewport.FULL, Range.ALL, -1, 0⟩ : Data) :: []) :: [])) :=
  notifyLoadData_update_rule 1 1 [⟨3, .CHANNEL_DRAW, 0, 5⟩] [] [] [] []
    ⟨1, 3, Viewport.FULL, Range.ALL, -1, 0⟩ (by simp) (by simp) rfl
    (by with_unfolding_all decide) (by decide)

/-- Counterexample to claim C4: after a first call has set the
    observation's time to 5 (load 5), a second call for the same channel
    and frame with a different draw statistic overwrites time and load
    with 7 — the code has no first-writer-wins guard. -/
theorem second_notifyLoadData_call_overwrites :
    notifyLoadData 1 1 [⟨3, .CHANNEL_DRAW, 0, 5⟩]
        [(1, [⟨1, 3, Viewport.FULL, Range.ALL, -1, 0⟩])] =
      [(1, [⟨1, 3, Viewport.FULL, Range.ALL, 5, 5⟩])] ∧
    notifyLoadData 1 1 [⟨3, .CHANNEL_DRAW, 0, 7⟩]
        [(1, [⟨1, 3, Viewport.FULL, Range.ALL, 5, 5⟩])] =
      [(1, [⟨1, 3, Viewport.FULL, Range.ALL, 7, 7⟩])] := by
  with_unfolding_all decide

/-- Claim C4 as amended: a subsequent `notifyLoadData` call for the same
    channel and frame recomputes the observation's time and load from its
    own statistics, whatever time and load are currently stored (last
    writer wins); only a call without relevant statistics leaves the
    observation unchanged. -/
theorem notifyLoadData_recomputes_regardless_of_stored_time (ch frame : ℕ)
    (stats : List Statistic) (pre post : List LBFrameData)
    (items1 items2 : List Data) (d : Data) (t0 : ℤ) (l0 : ℚ)
    (hpre : ∀ r ∈ pre, r.1 ≠ frame)
    (hitems : ∀ e ∈ items1, e.channel ≠ ch)
    (hch : d.channel = ch) (harea : 0 < d.vp.getArea)
    (hst : ∀ st ∈ stats, st.startTime < int64Max)
    (hrel : hasRelevantStat d.taskID stats = true) :
    notifyLoadData ch frame stats
        (pre ++ (frame, items1 ++ ({ d with time := t0, load := l0 }) :: items2) :: post) =
      pre ++ (frame, items1 ++
        ({ d with time := newTimeOf d.taskID stats,
                  load := (newTimeOf d.taskID stats : ℚ) / d.vp.getArea }) :: items2) :: post := by
  rw [notifyLoadData_found ch frame stats _ _ post
      (updateItems_found ch stats items1 ({ d with time := t0, load := l0 }) items2
        hitems hch harea) pre hpre,
    processData_of_relevant stats ({ d with time := t0, load := l0 }) hst hrel]

theorem notifyLoadData_recomputes_regardless_of_stored_time_witness :
    notifyLoadData 1 1 [⟨3, .CHANNEL_DRAW, 0, 7⟩]
        ([] ++ (1, [] ++
          ({ (⟨1, 3, Viewport.FULL, Range.ALL, -1, 0⟩ : Data) with
              time := (5 : ℤ), load := (5 : ℚ) }) :: []) :: []) =
      [] ++ (1, [] ++
        ({ (⟨1, 3, Viewport.FULL, Range.ALL, -1, 0⟩ : Data) with
            time := newTimeOf 3 [⟨3, .CHANNEL_DRAW, 0, 7⟩],
            load := (newTimeOf 3 [⟨3, .CHANNEL_DRAW, 0, 7⟩] : ℚ) /
              (⟨1, 3, Viewport.FULL, Range.ALL, -1, 0⟩ : Data).vp.getArea }) :: []) :: [] :=
  notifyLoadData_recomputes_regardless_of_stored_time 1 1 [⟨3, .CHANNEL_DRAW, 0, 7⟩]
    [] [] [] [] ⟨1, 3, Viewport.FULL, Range.ALL, -1, 0⟩ 5 5 (by simp) (by simp) rfl
    (by with_unfolding_all decide) (by decide) (by with_unfolding_all decide)

/-- Counterexample to claim C10: with two records carrying the same frame
    number, the first record matching the frame has no observation for the
    channel, and the call modifies an observation in the *second* matching
    record — not "the first observation matching the channel within the
    first history record matching the frameNumber". -/
theorem second_record_with_same_frame_modified :
    notifyLoadData 2 5 [⟨4, .CHANNEL_DRAW, 0, 6⟩]
        [(5, [⟨1, 3, Viewport.FULL, Range.ALL, -1, 0⟩]),
         (5, [⟨2, 4, Viewport.FULL, Range.ALL, -1, 0⟩])] =
      [(5, [⟨1, 3, Viewport.FULL, Range.ALL, -1, 0⟩]),
       (5, [⟨2, 4, Viewport.FULL, Range.ALL, 6, 6⟩])] ∧
    (⟨2, 4, Viewport.FULL, Range.ALL, 6, 6⟩ : Data) ≠
      ⟨2, 4, Viewport.FULL, Range.ALL, -1, 0⟩ := by
  with_unfolding_all decide

lemma updateItems_shape (ch : ℕ) (stats : List Statistic) :
    ∀ items : List Data,
      (updateItems ch stats items = none ∧ ∀ e ∈ items, e.channel ≠ ch) ∨
      ∃ items1 d d2 items2, items = items1 ++ d :: items2 ∧
        (∀ e ∈ items1, e.channel ≠ ch) ∧ d.channel = ch ∧
        d2.channel = d.channel ∧ d2.taskID = d.taskID ∧ d2.vp = d.vp ∧
        d2.range = d.range ∧
        updateItems ch stats items = some (items1 ++ d2 :: items2) := by
  intro items
  induction items with
  | nil => exact Or.inl ⟨rfl, by simp⟩
  | cons a rest ih =>
    by_cases hc : a.channel = ch
    · right
      by_cases harea : a.vp.getArea ≤ 0
      · exact ⟨[], a, a, rest, rfl, by simp, hc, rfl, rfl, rfl, rfl,
          by rw [updateItems]; simp [hc, harea]⟩
      · obtain ⟨h1, h2, h3, h4⟩ := processData_fields stats a
        exact ⟨[], a, processData stats a, rest, rfl, by simp, hc, h1, h2, h3, h4,
          by rw [updateItems]; simp [hc, harea]⟩
    · rcases ih with ⟨hnone, hall⟩ | ⟨items1, e, e2, items2, heq, hi1, hech, f1, f2, f3, f4, hupd⟩
      · left
        constructor
        · rw [updateItems]; simp [hc, hnone]
        · intro x hx
          rcases List.mem_cons.1 hx with h | h
          · exact h ▸ hc
          · exact hall x h
      · right
        refine ⟨a :: items1, e, e2, items2, by rw [heq]; rfl, ?_, hech, f1, f2, f3, f4, ?_⟩
        · intro x hx
          rcases List.mem_cons.1 hx with h | h
          · exact h ▸ hc
          · exact hi1 x h
        · rw [updateItems]
          simp only [hc, ne_eq, not_false_eq_true, if_true]
          rw [hupd]
          rfl

/-- Claim C10 as amended: every `notifyLoadData` call either leaves the
    history unchanged or modifies exactly one observation — the first
    observation matching the channel within the first record that matches
    the frame number *and contains an observation for the channel* — and
    only its time and load: the record list structure, frame numbers, and
    the channel/taskID/viewport/range of every observation are untouched. -/
theorem notifyLoadData_touches_single_observation (ch frame : ℕ)
    (stats : List Statistic) :
    ∀ hist : List LBFrameData,
      notifyLoadData ch frame stats hist = hist ∨
      ∃ pre items1 d d2 items2 post,
        hist = pre ++ (frame, items1 ++ d :: items2) :: post ∧
        (∀ r ∈ pre, r.1 = frame → ∀ e ∈ r.2, e.channel ≠ ch) ∧
        (∀ e ∈ items1, e.channel ≠ ch) ∧ d.channel = ch ∧
        d2.channel = d.channel ∧ d2.taskID = d.taskID ∧ d2.vp = d.vp ∧
        d2.range = d.range ∧
        notifyLoadData ch frame stats hist =
          pre ++ (frame, items1 ++ d2 :: items2) :: post := by
  intro hist
  induction hist with
  | nil => exact Or.inl rfl
  | cons r rest ih =>
    by_cases hf : r.1 = frame
    · rcases updateItems_shape ch stats r.2 with ⟨hnone, hall⟩ |
        ⟨items1, d, d2, items2, heq, hi1, hch, f1, f2, f3, f4, hupd⟩
      · have hstep : notifyLoadData ch frame stats (r :: rest) =
            r :: notifyLoadData ch frame stats rest := by
          rw [notifyLoadData]; simp [hf, hnone]
        rcases ih with hunch | ⟨pre, items1, d, d2, items2, post, heqr, hpre, hi1, hch, f1, f2, f3, f4, hres⟩
        · exact Or.inl (by rw [hstep, hunch])
        · right
          refine ⟨r :: pre, items1, d, d2, items2, post, by rw [heqr]; rfl, ?_,
            hi1, hch, f1, f2, f3, f4, by rw [hstep, hres]; rfl⟩
          intro x hx
          rcases List.mem_cons.1 hx with h | h
          · exact h ▸ (fun _ e he => hall e he)
          · exact hpre x h
      · right
        refine ⟨[], items1, d, d2, items2, rest, ?_, by simp, hi1, hch,
          f1, f2, f3, f4, ?_⟩
        · have hr : r = (frame, items1 ++ d :: items2) := by rw [← hf, ← heq]
          rw [hr]; rfl
        · rw [notifyLoadData]
          simp only [hf, ne_eq, not_true_eq_false, if_false, hupd]
          rfl
    · have hstep : notifyLoadData ch frame stats (r :: rest) =
          r :: notifyLoadData ch frame stats rest := by
        rw [notifyLoadData]; simp [hf]
      rcases ih with hunch | ⟨pre, items1, d, d2, items2, post, heqr, hpre, hi1, hch, f1, f2, f3, f4, hres⟩
      · exact Or.inl (by rw [hstep, hunch])
      · right
        refine ⟨r :: pre, items1, d, d2, items2, post, by rw [heqr]; rfl, ?_,
          hi1, hch, f1, f2, f3, f4, by rw [hstep, hres]; rfl⟩
        intro x hx
        rcases List.mem_cons.1 hx with h | h
        · exact h ▸ (fun hxf => absurd hxf hf)
        · exact hpre x h

/-! ## Claim C5: the front record after `_checkHistory` -/

/-- Counterexample to claim C5: on a history holding a single incomplete
    record, `_checkHistory` finds no complete record (`useFrame = 0`),
    drops nothing and inserts nothing, so the front record afterwards is
    neither complete nor the synthetic record. -/
theorem incomplete_front_record_survives_checkHistory :
    checkHistory [(5, [⟨1, 3, Viewport.FULL, Range.ALL, -1, 0⟩])] =
      [(5, [⟨1, 3, Viewport.FULL, Range.ALL, -1, 0⟩])] ∧
    isCompleteRecord [⟨1, 3, Viewport.FULL, Range.ALL, -1, 0⟩] = false ∧
    ((5 : ℕ), [(⟨1, 3, Viewport.FULL, Range.ALL, -1, 0⟩ : Data)]) ≠
      ((0 : ℕ), [syntheticData]) := by
  with_unfolding_all decide

lemma findUseFrame_zero : ∀ l : List LBFrameData, findUseFrame l = 0 →
    ∀ r ∈ l, isCompleteRecord r.2 = true → r.1 = 0 := by
  intro l
  induction l with
  | nil => intro _ r hr; simp at hr
  | cons a t ih =>
    intro h r hr hc
    rw [findUseFrame] at h
    by_cases hca : isCompleteRecord a.2 = true
    · simp only [hca, if_true] at h
      by_cases ha : a.1 = 0
      · rw [if_pos ha] at h
        rcases List.mem_cons.1 hr with he | ht2
        · rw [he]; exact ha
        · exact ih h r ht2 hc
      · rw [if_neg ha] at h
        exact absurd h ha
    · simp only [hca, if_false, if_pos rfl] at h
      rcases List.mem_cons.1 hr with he | ht2
      · exact absurd (he ▸ hc) hca
      · exact ih h r ht2 hc

lemma findUseFrame_pos : ∀ l : List LBFrameData, findUseFrame l ≠ 0 →
    ∃ l1 r l2, l = l1 ++ r :: l2 ∧ isCompleteRecord r.2 = true ∧
      r.1 = findUseFrame l ∧ ∀ x ∈ l1, isCompleteRecord x.2 = true → x.1 = 0 := by
  intro l
  induction l with
  | nil => intro h; simp [findUseFrame] at h
  | cons a t ih =>
    intro h
    by_cases hca : isCompleteRecord a.2 = true
    · by_cases ha : a.1 = 0
      · have hft : findUseFrame (a :: t) = findUseFrame t := by
          rw [findUseFrame]; simp [hca, ha]
        obtain ⟨l1, r, l2, heq, hc, hu, hl1⟩ := ih (by rw [hft] at h; exact h)
        refine ⟨a :: l1, r, l2, by rw [heq]; rfl, hc, by rw [hft]; exact hu, ?_⟩
        intro x hx
        rcases List.mem_cons.1 hx with he | hxt
        · intro _; rw [he]; exact ha
        · exact hl1 x hxt
      · have hft : findUseFrame (a :: t) = a.1 := by
          rw [findUseFrame]; simp [hca, ha]
        exact ⟨[], a, t, rfl, hca, hft.symm, by simp⟩
    · have hft : findUseFrame (a :: t) = findUseFrame t := by
        rw [findUseFrame]; simp [hca]
      obtain ⟨l1, r, l2, heq, hc, hu, hl1⟩ := ih (by rw [hft] at h; exact h)
      refine ⟨a :: l1, r, l2, by rw [heq]; rfl, hc, by rw [hft]; exact hu, ?_⟩
      intro x hx
      rcases List.mem_cons.1 hx with he | hxt
      · intro hcx; exact absurd (he ▸ hcx) hca
      · exact hl1 x hxt

lemma dropWhile_append_all (p : LBFrameData → Bool) :
    ∀ l1 l2 : List LBFrameData, (∀ x ∈ l1, p x = true) →
      (l1 ++ l2).dropWhile p = l2.dropWhile p := by
  intro l1
  induction l1 with
  | nil => intro l2 _; rfl
  | cons a t ih =>
    intro l2 hall
    rw [List.cons_append, List.dropWhile_cons_of_pos (hall a (by simp))]
    exact ih l2 (fun x hx => hall x (by simp [hx]))

/-- Claim C5 as amended: for every history whose frame numbers are strictly
    increasing and which is empty or contains a complete record, after
    `_checkHistory` the front (oldest) record is either the unique complete
    record (every other remaining record is incomplete) or the synthetic
    record `(0, [{time = 1, load = 1}])`. -/
theorem checkHistory_front_complete_or_synthetic (h : List LBFrameData)
    (hchain : List.Chain' (fun a b : LBFrameData => a.1 < b.1) h)
    (hex : h = [] ∨ ∃ r ∈ h, isCompleteRecord r.2 = true) :
    ∃ front rest, checkHistory h = front :: rest ∧
      ((isCompleteRecord front.2 = true ∧
          (∀ r ∈ rest, isCompleteRecord r.2 = false)) ∨
        front = (0, [syntheticData])) := by
  haveI : IsTrans LBFrameData (fun a b : LBFrameData => a.1 < b.1) :=
    ⟨fun _ _ _ h1 h2 => Nat.lt_trans h1 h2⟩
  rcases hex with hemp | ⟨r0, hr0, hc0⟩
  · subst hemp
    exact ⟨(0, [syntheticData]), [], rfl, Or.inr rfl⟩
  · have hpw : List.Pairwise (fun a b : LBFrameData => a.1 < b.1) h :=
      List.chain'_iff_pairwise.mp hchain
    by_cases hu : findUseFrame h.reverse = 0
    · have hz := findUseFrame_zero h.reverse hu
      cases h with
      | nil => simp at hr0
      | cons hd tl =>
        have hch : checkHistory (hd :: tl) = hd :: tl := by
          rw [checkHistory]
          simp only [hu]
          rw [List.dropWhile_cons_of_neg (by simp)]
          rfl
        refine ⟨hd, tl, hch, Or.inl ⟨?_, ?_⟩⟩
        · rcases List.mem_cons.1 hr0 with he | ht
          · rw [← he]; exact hc0
          · exfalso
            have h01 : r0.1 = 0 :=
              hz r0 (by rw [List.mem_reverse]; exact hr0) hc0
            have hlt : hd.1 < r0.1 := (List.pairwise_cons.1 hpw).1 r0 ht
            omega
        · intro r hr
          rcases Bool.eq_false_or_eq_true (isCompleteRecord r.2) with ht2 | hf
          · exfalso
            have h01 : r.1 = 0 :=
              hz r (by rw [List.mem_reverse]; exact List.mem_cons_of_mem hd hr) ht2
            have hlt : hd.1 < r.1 := (List.pairwise_cons.1 hpw).1 r hr
            omega
          · exact hf
    · obtain ⟨l1, rr, l2, heq, hcrr, hurr, hl1⟩ := findUseFrame_pos h.reverse hu
      have hsplit : h = l2.reverse ++ rr :: l1.reverse := by
        have h2 := congrArg List.reverse heq
        rw [List.reverse_reverse] at h2
        rw [h2]
        simp [List.reverse_append, List.reverse_cons, List.append_assoc]
      have hpw2 := hsplit ▸ hpw
      have hpair := List.pairwise_append.1 hpw2
      have hlt2 : ∀ x ∈ l2.reverse, x.1 < rr.1 :=
        fun x hx => hpair.2.2 x hx rr (by simp)
      have hgt1 : ∀ y ∈ l1.reverse, rr.1 < y.1 := (List.pairwise_cons.1 hpair.2.1).1
      have hgen : ∀ u : ℕ, rr.1 = u →
          (l2.reverse ++ rr :: l1.reverse).dropWhile (fun r => decide (r.1 < u)) =
            rr :: l1.reverse := by
        intro u huu
        rw [dropWhile_append_all _ _ _
          (fun x hx => decide_eq_true (huu ▸ hlt2 x hx))]
        exact List.dropWhile_cons_of_neg (by simp [← huu])
      have hdw : h.dropWhile (fun r => decide (r.1 < findUseFrame h.reverse)) =
          rr :: l1.reverse := by
        have hc1 := congrArg
          (fun l : List LBFrameData =>
            l.dropWhile (fun r => decide (r.1 < findUseFrame h.reverse))) hsplit
        exact hc1.trans (hgen (findUseFrame h.reverse) hurr)
      have hch2 : checkHistory h = rr :: l1.reverse := by
        rw [checkHistory]
        simp only [hdw]
        rfl
      refine ⟨rr, l1.reverse, hch2, Or.inl ⟨hcrr, ?_⟩⟩
      intro r hr
      rcases Bool.eq_false_or_eq_true (isCompleteRecord r.2) with ht2 | hf
      · exfalso
        have h0 : r.1 = 0 := hl1 r (by rwa [List.mem_reverse] at hr) ht2
        have := hgt1 r hr
        omega
      · exact hf

theorem checkHistory_front_complete_or_synthetic_witness :
    ∃ front rest,
      checkHistory [(0, [syntheticData]),
        (2, [⟨1, 3, Viewport.FULL, Range.ALL, -1, 0⟩])] = front :: rest ∧
      ((isCompleteRecord front.2 = true ∧
          (∀ r ∈ rest, isCompleteRecord r.2 = false)) ∨
        front = (0, [syntheticData])) :=
  checkHistory_front_complete_or_synthetic _ (by simp [List.chain'_cons])
    (Or.inr ⟨(0, [syntheticData]), by simp, by decide⟩)

/-! ## Claim C2: the leaf viewports / ranges partition the root

Viewports and ranges are interpreted as half-open boxes
`[x, x+w) × [y, y+h)` and intervals `[start, end)`, so that exact
disjointness and exact covering express the claim's "disjoint union up to
floating epsilon". -/

lemma clampQ_mem (lo hi v : ℚ) (h : lo ≤ hi) :
    lo ≤ clampQ lo hi v ∧ clampQ lo hi v ≤ hi := by
  rw [clampQ, EQ_MINq, EQ_MAXq]
  split_ifs <;> constructor <;> linarith

lemma vSplitPos_mem (pvpW : ℚ) (b2x : ℤ) (l r : LBNode) (xs : List Data)
    (vp : Viewport) (hw : 0 ≤ vp.w) :
    vp.x ≤ vSplitPos pvpW b2x l r xs vp ∧
      vSplitPos pvpW b2x l r xs vp ≤ vp.x + vp.w := by
  rw [vSplitPos, Viewport.getXEnd]
  exact clampQ_mem _ _ _ (by linarith)

lemma hSplitPos_mem (pvpH : ℚ) (b2y : ℤ) (l r : LBNode) (ys : List Data)
    (vp : Viewport) (hh : 0 ≤ vp.h) :
    vp.y ≤ hSplitPos pvpH b2y l r ys vp ∧
      hSplitPos pvpH b2y l r ys vp ≤ vp.y + vp.h := by
  rw [hSplitPos, Viewport.getYEnd]
  exact clampQ_mem _ _ _ (by linarith)

lemma db_clamp_mem (a b bf q : ℚ) (hb : 0 ≤ bf) (hab : a ≤ b) :
    a ≤ (if b - (if q - a < bf then a else q) < bf then b
          else (if q - a < bf then a else q)) ∧
    (if b - (if q - a < bf then a else q) < bf then b
      else (if q - a < bf then a else q)) ≤ b := by
  split_ifs <;> constructor <;> linarith

lemma dbSplitPos_mem (bf : ℚ) (l r : LBNode) (rs : List Data) (rg : Range)
    (hb : 0 ≤ bf) (hse : rg.start ≤ rg.end_) :
    rg.start ≤ dbSplitPos bf l r rs rg ∧ dbSplitPos bf l r rs rg ≤ rg.end_ := by
  simp only [dbSplitPos]
  exact db_clamp_mem rg.start rg.end_ bf _ hb hse

lemma vpContains_splitX (vp : Viewport) (sp : ℚ) (h1 : vp.x ≤ sp)
    (h2 : sp ≤ vp.x + vp.w) (p : ℚ × ℚ) :
    vpContains vp p ↔
      (vpContains ⟨vp.x, vp.y, sp - vp.x, vp.h⟩ p ∨
       vpContains ⟨sp, vp.y, vp.x + vp.w - sp, vp.h⟩ p) := by
  simp only [vpContains]
  constructor
  · rintro ⟨ha, hb, hc, hd⟩
    by_cases hx : p.1 < sp
    · exact Or.inl ⟨ha, by linarith, hc, hd⟩
    · exact Or.inr ⟨by linarith, by linarith, hc, hd⟩
  · rintro (⟨ha, hb, hc, hd⟩ | ⟨ha, hb, hc, hd⟩)
    · exact ⟨ha, by linarith, hc, hd⟩
    · exact ⟨by linarith, by linarith, hc, hd⟩

lemma vpContains_splitX_disj (vp : Viewport) (sp : ℚ) (p : ℚ × ℚ) :
    vpContains ⟨vp.x, vp.y, sp - vp.x, vp.h⟩ p →
    vpContains ⟨sp, vp.y, vp.x + vp.w - sp, vp.h⟩ p → False := by
  rintro ⟨_, hb, _, _⟩ ⟨hc, _, _, _⟩
  simp only at hb hc
  linarith

lemma vpContains_splitY (vp : Viewport) (sp : ℚ) (h1 : vp.y ≤ sp)
    (h2 : sp ≤ vp.y + vp.h) (p : ℚ × ℚ) :
    vpContains vp p ↔
      (vpContains ⟨vp.x, vp.y, vp.w, sp - vp.y⟩ p ∨
       vpContains ⟨vp.x, sp, vp.w, vp.y + vp.h - sp⟩ p) := by
  simp only [vpContains]
  constructor
  · rintro ⟨ha, hb, hc, hd⟩
    by_cases hy : p.2 < sp
    · exact Or.inl ⟨ha, hb, hc, by linarith⟩
    · exact Or.inr ⟨ha, hb, by linarith, by linarith⟩
  · rintro (⟨ha, hb, hc, hd⟩ | ⟨ha, hb, hc, hd⟩)
    · exact ⟨ha, hb, hc, by linarith⟩
    · exact ⟨ha, hb, by linarith, by linarith⟩

lemma vpContains_splitY_disj (vp : Viewport) (sp : ℚ) (p : ℚ × ℚ) :
    vpContains ⟨vp.x, vp.y, vp.w, sp - vp.y⟩ p →
    vpContains ⟨vp.x, sp, vp.w, vp.y + vp.h - sp⟩ p → False := by
  rintro ⟨_, _, _, hb⟩ ⟨_, _, hc, _⟩
  simp only at hb hc
  linarith

lemma rangeContains_split (rg : Range) (sp : ℚ) (h1 : rg.start ≤ sp)
    (h2 : sp ≤ rg.end_) (q : ℚ) :
    rangeContains rg q ↔
      (rangeContains ⟨rg.start, sp⟩ q ∨ rangeContains ⟨sp, rg.end_⟩ q) := by
  simp only [rangeContains]
  constructor
  · rintro ⟨ha, hb⟩
    by_cases hq : q < sp
    · exact Or.inl ⟨ha, hq⟩
    · exact Or.inr ⟨by linarith, hb⟩
  · rintro (⟨ha, hb⟩ | ⟨ha, hb⟩)
    · exact ⟨ha, by linarith⟩
    · exact ⟨by linarith, hb⟩

lemma rangeContains_split_disj (rg : Range) (sp : ℚ) (q : ℚ) :
    rangeContains ⟨rg.start, sp⟩ q → rangeContains ⟨sp, rg.end_⟩ q → False := by
  rintro ⟨_, hb⟩ ⟨hc, _⟩
  simp only at hb hc
  linarith

lemma computeSplit_partition2D (pvpW pvpH : ℚ) (xs ys rs : List Data) :
    ∀ (t : LBNode) (vp : Viewport) (rg : Range), is2DTree t = true →
      0 ≤ vp.w → 0 ≤ vp.h →
      List.Pairwise (fun a b : Assignment => ∀ p : ℚ × ℚ,
          vpContains a.vp p → vpContains b.vp p → False)
        (computeSplitNode pvpW pvpH t xs ys rs vp rg).1 ∧
      ∀ p : ℚ × ℚ, (vpContains vp p ↔
        ∃ a ∈ (computeSplitNode pvpW pvpH t xs ys rs vp rg).1, vpContains a.vp p) := by
  intro t
  induction t with
  | leaf c sm ms b2 bf tt u =>
    intro vp rg _ _ _
    refine ⟨by simp [computeSplitNode], fun p => ?_⟩
    simp [computeSplitNode]
  | node sm ms b2 bf tt u l r ihl ihr =>
    intro vp rg h2d hw hh
    rw [is2DTree] at h2d
    simp only [Bool.and_eq_true, Bool.or_eq_true, decide_eq_true_eq] at h2d
    obtain ⟨⟨hsm, hl⟩, hr⟩ := h2d
    rcases hsm with hsm | hsm <;> subst hsm
    · simp only [computeSplitNode, Viewport.getXEnd]
      obtain ⟨hm1, hm2⟩ := vSplitPos_mem pvpW b2.1 l r xs vp hw
      obtain ⟨pwL, covL⟩ :=
        ihl ⟨vp.x, vp.y, vSplitPos pvpW b2.1 l r xs vp - vp.x, vp.h⟩ rg hl
          (by show (0 : ℚ) ≤ vSplitPos pvpW b2.1 l r xs vp - vp.x; linarith)
          (by show (0 : ℚ) ≤ vp.h; exact hh)
      obtain ⟨pwR, covR⟩ :=
        ihr ⟨vSplitPos pvpW b2.1 l r xs vp, vp.y,
            vp.x + vp.w - vSplitPos pvpW b2.1 l r xs vp, vp.h⟩ rg hr
          (by show (0 : ℚ) ≤ vp.x + vp.w - vSplitPos pvpW b2.1 l r xs vp; linarith)
          (by show (0 : ℚ) ≤ vp.h; exact hh)
      constructor
      · refine List.pairwise_append.mpr ⟨pwL, pwR, ?_⟩
        intro a ha b hb p hpa hpb
        exact vpContains_splitX_disj vp (vSplitPos pvpW b2.1 l r xs vp) p
          ((covL p).mpr ⟨a, ha, hpa⟩) ((covR p).mpr ⟨b, hb, hpb⟩)
      · intro p
        constructor
        · intro hp
          rcases (vpContains_splitX vp (vSplitPos pvpW b2.1 l r xs vp) hm1 hm2 p).mp hp
            with hL | hR
          · obtain ⟨a, ha, hpa⟩ := (covL p).mp hL
            exact ⟨a, List.mem_append_left _ ha, hpa⟩
          · obtain ⟨a, ha, hpa⟩ := (covR p).mp hR
            exact ⟨a, List.mem_append_right _ ha, hpa⟩
        · rintro ⟨a, ha, hpa⟩
          rcases List.mem_append.1 ha with hmem | hmem
          · exact (vpContains_splitX vp (vSplitPos pvpW b2.1 l r xs vp) hm1 hm2 p).mpr
              (Or.inl ((covL p).mpr ⟨a, hmem, hpa⟩))
          · exact (vpContains_splitX vp (vSplitPos pvpW b2.1 l r xs vp) hm1 hm2 p).mpr
              (Or.inr ((covR p).mpr ⟨a, hmem, hpa⟩))
    · simp only [computeSplitNode, Viewport.getYEnd]
      obtain ⟨hm1, hm2⟩ := hSplitPos_mem pvpH b2.2 l r ys vp hh
      obtain ⟨pwL, covL⟩ :=
        ihl ⟨vp.x, vp.y, vp.w, hSplitPos pvpH b2.2 l r ys vp - vp.y⟩ rg hl
          (by show (0 : ℚ) ≤ vp.w; exact hw)
          (by show (0 : ℚ) ≤ hSplitPos pvpH b2.2 l r ys vp - vp.y; linarith)
      obtain ⟨pwR, covR⟩ :=
        ihr ⟨vp.x, hSplitPos pvpH b2.2 l r ys vp, vp.w,
            vp.y + vp.h - hSplitPos pvpH b2.2 l r ys vp⟩ rg hr
          (by show (0 : ℚ) ≤ vp.w; exact hw)
          (by show (0 : ℚ) ≤ vp.y + vp.h - hSplitPos pvpH b2.2 l r ys vp; linarith)
      constructor
      · refine List.pairwise_append.mpr ⟨pwL, pwR, ?_⟩
        intro a ha b hb p hpa hpb
        exact vpContains_splitY_disj vp (hSplitPos pvpH b2.2 l r ys vp) p
          ((covL p).mpr ⟨a, ha, hpa⟩) ((covR p).mpr ⟨b, hb, hpb⟩)
      · intro p
        constructor
        · intro hp
          rcases (vpContains_splitY vp (hSplitPos pvpH b2.2 l r ys vp) hm1 hm2 p).mp hp
            with hL | hR
          · obtain ⟨a, ha, hpa⟩ := (covL p).mp hL
            exact ⟨a, List.mem_append_left _ ha, hpa⟩
          · obtain ⟨a, ha, hpa⟩ := (covR p).mp hR
            exact ⟨a, List.mem_append_right _ ha, hpa⟩
        · rintro ⟨a, ha, hpa⟩
          rcases List.mem_append.1 ha with hmem | hmem
          · exact (vpContains_splitY vp (hSplitPos pvpH b2.2 l r ys vp) hm1 hm2 p).mpr
              (Or.inl ((covL p).mpr ⟨a, hmem, hpa⟩))
          · exact (vpContains_splitY vp (hSplitPos pvpH b2.2 l r ys vp) hm1 hm2 p).mpr
              (Or.inr ((covR p).mpr ⟨a, hmem, hpa⟩))

lemma computeSplit_partitionDB (pvpW pvpH : ℚ) (xs ys rs : List Data) :
    ∀ (t : LBNode) (vp : Viewport) (rg : Range), isDBTree t = true →
      rg.start ≤ rg.end_ →
      List.Pairwise (fun a b : Assignment => ∀ q : ℚ,
          rangeContains a.range q → rangeContains b.range q → False)
        (computeSplitNode pvpW pvpH t xs ys rs vp rg).1 ∧
      ∀ q : ℚ, (rangeContains rg q ↔
        ∃ a ∈ (computeSplitNode pvpW pvpH t xs ys rs vp rg).1, rangeContains a.range q) := by
  intro t
  induction t with
  | leaf c sm ms b2 bf tt u =>
    intro vp rg _ _
    refine ⟨by simp [computeSplitNode], fun q => ?_⟩
    simp [computeSplitNode]
  | node sm ms b2 bf tt u l r ihl ihr =>
    intro vp rg hdb hse
    rw [isDBTree] at hdb
    simp only [Bool.and_eq_true, decide_eq_true_eq] at hdb
    obtain ⟨⟨⟨hsm, hbf⟩, hl⟩, hr⟩ := hdb
    subst hsm
    simp only [computeSplitNode]
    obtain ⟨hm1, hm2⟩ := dbSplitPos_mem bf l r rs rg hbf hse
    obtain ⟨pwL, covL⟩ :=
      ihl vp ⟨rg.start, dbSplitPos bf l r rs rg⟩ hl
        (by show rg.start ≤ dbSplitPos bf l r rs rg; exact hm1)
    obtain ⟨pwR, covR⟩ :=
      ihr vp ⟨dbSplitPos bf l r rs rg, rg.end_⟩ hr
        (by show dbSplitPos bf l r rs rg ≤ rg.end_; exact hm2)
    constructor
    · refine List.pairwise_append.mpr ⟨pwL, pwR, ?_⟩
      intro a ha b hb q hqa hqb
      exact rangeContains_split_disj rg (dbSplitPos bf l r rs rg) q
        ((covL q).mpr ⟨a, ha, hqa⟩) ((covR q).mpr ⟨b, hb, hqb⟩)
    · intro q
      constructor
      · intro hq
        rcases (rangeContains_split rg (dbSplitPos bf l r rs rg) hm1 hm2 q).mp hq
          with hL | hR
        · obtain ⟨a, ha, hqa⟩ := (covL q).mp hL
          exact ⟨a, List.mem_append_left _ ha, hqa⟩
        · obtain ⟨a, ha, hqa⟩ := (covR q).mp hR
          exact ⟨a, List.mem_append_right _ ha, hqa⟩
      · rintro ⟨a, ha, hqa⟩
        rcases List.mem_append.1 ha with hmem | hmem
        · exact (rangeContains_split rg (dbSplitPos bf l r rs rg) hm1 hm2 q).mpr
            (Or.inl ((covL q).mpr ⟨a, hmem, hqa⟩))
        · exact (rangeContains_split rg (dbSplitPos bf l r rs rg) hm1 hm2 q).mpr
            (Or.inr ((covR q).mpr ⟨a, hmem, hqa⟩))

/-- Claim C2: after the split solver finishes, for every run in a 2-D mode
    (every internal node VERTICAL or HORIZONTAL) the viewports assigned to
    the leaves are pairwise disjoint and their union covers the root
    viewport exactly (half-open boxes; exact arithmetic absorbs the
    floating-epsilon caveat); for every run in DB mode the ranges assigned
    to the leaves are pairwise disjoint and their union covers the root
    range, at the top level `[0,1)`. -/
theorem split_leaf_regions_partition_root :
    (∀ (pvpW pvpH : ℚ) (xs ys rs : List Data) (t : LBNode) (vp : Viewport)
        (rg : Range), is2DTree t = true → 0 ≤ vp.w → 0 ≤ vp.h →
      List.Pairwise (fun a b : Assignment => ∀ p : ℚ × ℚ,
          vpContains a.vp p → vpContains b.vp p → False)
        (computeSplitNode pvpW pvpH t xs ys rs vp rg).1 ∧
      ∀ p : ℚ × ℚ, (vpContains vp p ↔
        ∃ a ∈ (computeSplitNode pvpW pvpH t xs ys rs vp rg).1, vpContains a.vp p)) ∧
    (∀ (pvpW pvpH : ℚ) (xs ys rs : List Data) (t : LBNode) (vp : Viewport)
        (rg : Range), isDBTree t = true → rg.start ≤ rg.end_ →
      List.Pairwise (fun a b : Assignment => ∀ q : ℚ,
          rangeContains a.range q → rangeContains b.range q → False)
        (computeSplitNode pvpW pvpH t xs ys rs vp rg).1 ∧
      ∀ q : ℚ, (rangeContains rg q ↔
        ∃ a ∈ (computeSplitNode pvpW pvpH t xs ys rs vp rg).1, rangeContains a.range q)) :=
  ⟨fun pvpW pvpH xs ys rs t vp rg => computeSplit_partition2D pvpW pvpH xs ys rs t vp rg,
   fun pvpW pvpH xs ys rs t vp rg => computeSplit_partitionDB pvpW pvpH xs ys rs t vp rg⟩

theorem split_leaf_regions_partition_root_witness :
    (List.Pairwise (fun a b : Assignment => ∀ p : ℚ × ℚ,
          vpContains a.vp p → vpContains b.vp p → False)
        (computeSplitNode 1024 1024 c2TwoDTree [] [] [] Viewport.FULL Range.ALL).1 ∧
      ∀ p : ℚ × ℚ, (vpContains Viewport.FULL p ↔
        ∃ a ∈ (computeSplitNode 1024 1024 c2TwoDTree [] [] []
          Viewport.FULL Range.ALL).1, vpContains a.vp p)) ∧
    (List.Pairwise (fun a b : Assignment => ∀ q : ℚ,
          rangeContains a.range q → rangeContains b.range q → False)
        (computeSplitNode 1024 1024 c2DBTree [] [] [] Viewport.FULL Range.ALL).1 ∧
      ∀ q : ℚ, (rangeContains Range.ALL q ↔
        ∃ a ∈ (computeSplitNode 1024 1024 c2DBTree [] [] []
          Viewport.FULL Range.ALL).1, rangeContains a.range q)) :=
  ⟨split_leaf_regions_partition_root.1 1024 1024 [] [] [] c2TwoDTree
      Viewport.FULL Range.ALL (by with_unfolding_all decide)
      (by with_unfolding_all decide) (by with_unfolding_all decide),
   split_leaf_regions_partition_root.2 1024 1024 [] [] [] c2DBTree
      Viewport.FULL Range.ALL (by with_unfolding_all decide)
      (by with_unfolding_all decide)⟩

end EqLB
